import Mathlib

/-!
Shallow embedding of the orchestration core of the Savage-Scraper framework
(`module.py`): work partitioning, resume filtering, the worker batch loop and
its progress-signal protocol, the progress tracker, the supervisor's monitor
loop, and the output manager.  Definitions mirror the Python source; theorems
settle the specification's testable properties against them.
-/

namespace SavageScraper

/-- A work item: an ordered mapping of named string fields
(a Python `dict` as it is consulted by the framework: key lookup only). -/
abbrev Item := List (String × String)

/-- `str(item.get(key, ''))` — look up `key` in the item, defaulting to the
empty string when the field is absent (the framework compares the stringified
value; in this model field values are strings already). -/
def itemGet (item : Item) (key : String) : String :=
  match item.find? (fun p => p.1 = key) with
  | some p => p.2
  | none => ""

/-! ## Partitioner: `split_items_into_batches` (module.py lines 775-793) -/

/-- The slicing loop `for i in range(0, len(items), batch_size)` of
`split_items_into_batches`, with the iteration count made explicit as
structural fuel (the wrapper passes `items.length`, which bounds the number
of slices taken since `batch_size ≥ 1` at every call site: each step consumes
at least the head element). -/
def slice_chunks_aux (batch_size : Nat) : Nat → List α → List (List α)
  | _, [] => []
  | 0, l => [l]
  | fuel + 1, x :: xs =>
      (x :: xs.take (batch_size - 1)) :: slice_chunks_aux batch_size fuel (xs.drop (batch_size - 1))

/-- `[items[i:i+batch_size] for i in range(0, len(items), batch_size)]` with
`batch_size ≥ 1`: sequential slices of the input list. -/
def slice_chunks (batch_size : Nat) (items : List α) : List (List α) :=
  slice_chunks_aux batch_size items.length items

/-- One iteration of the trailing-merge loop:
`last_batch = batches.pop(); batches[-1].extend(last_batch)` —
the final two batches are merged in order. -/
def merge_step : List (List α) → List (List α)
  | [] => []
  | [b] => [b]
  | [b1, b2] => [b1 ++ b2]
  | b :: rest => b :: merge_step rest

/-- The loop `while len(batches) > num_processes and len(batches) > 1:` of
`split_items_into_batches`, with its iteration count made explicit as
structural fuel (the wrapper passes the number of batches, which bounds the
number of iterations since every iteration removes one batch). -/
def merge_loop (num_processes : Nat) : Nat → List (List α) → List (List α)
  | 0, batches => batches
  | fuel + 1, batches =>
      if num_processes < batches.length ∧ 1 < batches.length then
        merge_loop num_processes fuel (merge_step batches)
      else batches

/-- `split_items_into_batches(items, num_processes)` (module.py lines 775-793):
returns `[]` on empty input, otherwise slices the input into chunks of
`max(1, len(items) // num_processes)` and then merges trailing batches until
at most `num_processes` batches remain. -/
def split_items_into_batches (items : List α) (num_processes : Nat) : List (List α) :=
  if items.isEmpty then []
  else
    merge_loop num_processes
      (slice_chunks (max 1 (items.length / num_processes)) items).length
      (slice_chunks (max 1 (items.length / num_processes)) items)

/-! ## ResumeFilter: `_load_existing_results` / `_filter_items_for_resume`
(module.py lines 130-179) -/

/-- The persisted output file as read back for resume: `none` when the file
does not exist, otherwise the header column names together with the data rows
(a row is a partial mapping from column names to string values). -/
abbrev OutputData := Option (List String × List Item)

/-- `_load_existing_results` (module.py lines 130-156): the set of distinct
stringified non-null values of the resume-key column of the existing output;
empty when the file is missing, holds no rows, or lacks the resume-key column
(all failure cases fall back to the empty set). -/
def load_existing_results (output : OutputData) (resume_key : String) : List String :=
  match output with
  | none => []
  | some (columns, rows) =>
      if rows.isEmpty then []
      else if resume_key ∉ columns then []
      else rows.filterMap (fun row => (row.find? (fun p => p.1 = resume_key)).map (fun p => p.2))

/-- `_filter_items_for_resume` (module.py lines 158-179): load the existing
resume keys; when there are none, return the items unchanged; otherwise keep an
item only when its stringified resume-key value is truthy (non-empty) and not
among the existing keys. -/
def filter_items_for_resume (output : OutputData) (resume_key : String)
    (items : List Item) : List Item :=
  let existing_keys := load_existing_results output resume_key
  if existing_keys.isEmpty then items
  else
    items.filter (fun item =>
      let item_key := itemGet item resume_key
      item_key != "" && !(existing_keys.contains item_key))

/-- Stated from the spec's words, for comparison with the code's
`filter_items_for_resume` (C2): resuming with persisted keys `K` processes
exactly `I \ K` — drop an item exactly when its resume-key value is in `K`,
keep every other item. -/
def spec_filter_items_for_resume (output : OutputData) (resume_key : String)
    (items : List Item) : List Item :=
  let existing_keys := load_existing_results output resume_key
  if existing_keys.isEmpty then items
  else items.filter (fun item => !(existing_keys.contains (itemGet item resume_key)))

/-! ## Worker: `process_batch` (module.py lines 423-500) -/

/-- Outcome of one agent call (`_process_single_item`) as observed by the batch
loop: a list of result records, or an exception propagating out of the call. -/
inductive ItemOutcome where
  | ok (results : List Item)
  | exn
  deriving DecidableEq

/-- One message on the progress queue: an integer signal or the `'DONE'`
completion sentinel. -/
inductive ProgressMsg where
  | sig (count : Int)
  | done
  deriving DecidableEq

/-- Whether a progress-queue message is the `'DONE'` sentinel. -/
def ProgressMsg.isDone : ProgressMsg → Bool
  | .done => true
  | .sig _ => false

/-- The body of the per-item loop of `process_batch` (module.py lines 441-466)
as the pair (progress-queue puts, output-queue puts) of one iteration: an item
with a falsy tracking-key field is skipped with signal `0`; an agent call
returning records puts each record on the output queue and signals their count;
an agent call returning no records signals `0`; a raising agent call is caught
locally and signals `-1`. -/
def item_step (agent : Item → ItemOutcome) (ptk : String) (item : Item) :
    List ProgressMsg × List Item :=
  if itemGet item ptk = "" then ([ProgressMsg.sig 0], [])
  else
    match agent item with
    | .ok results =>
        if results.isEmpty then ([ProgressMsg.sig 0], [])
        else ([ProgressMsg.sig (Int.ofNat results.length)], results)
    | .exn => ([ProgressMsg.sig (-1)], [])

/-- The single progress signal the loop body emits for one item (derived view
of `item_step`). -/
def item_signal (agent : Item → ItemOutcome) (ptk : String) (item : Item) : ProgressMsg :=
  if itemGet item ptk = "" then ProgressMsg.sig 0
  else
    match agent item with
    | .ok results =>
        if results.isEmpty then ProgressMsg.sig 0
        else ProgressMsg.sig (Int.ofNat results.length)
    | .exn => ProgressMsg.sig (-1)

/-- The item loop of `process_batch`: concatenated progress-queue and
output-queue puts over a batch, in batch order. -/
def process_items (agent : Item → ItemOutcome) (ptk : String) :
    List Item → List ProgressMsg × List Item
  | [] => ([], [])
  | item :: rest =>
      ((item_step agent ptk item).1 ++ (process_items agent ptk rest).1,
       (item_step agent ptk item).2 ++ (process_items agent ptk rest).2)

/-- How one `process_batch` invocation terminates: driver initialization
failed (`_init_driver()` returned false); the loop ran to completion; or an
exception outside the per-item handler unwound the loop after `k` items (the
outer `except` then signals `-1` once per batch item). -/
inductive BatchMode where
  | initFail
  | normal
  | outerExn (k : Nat)
  deriving DecidableEq

/-- `process_batch` (module.py lines 423-500) as the pair (progress-queue puts,
output-queue puts) of one invocation.  On driver-initialization failure it
signals `-1` once per batch item and returns without processing anything; on an
exception unwinding the loop the outer handler signals `-1` once per batch
item; in every case the `finally` block puts the `'DONE'` sentinel last. -/
def process_batch (mode : BatchMode) (agent : Item → ItemOutcome) (ptk : String)
    (batch : List Item) : List ProgressMsg × List Item :=
  match mode with
  | .initFail =>
      (batch.map (fun _ => ProgressMsg.sig (-1)) ++ [ProgressMsg.done], [])
  | .normal =>
      ((process_items agent ptk batch).1 ++ [ProgressMsg.done],
       (process_items agent ptk batch).2)
  | .outerExn k =>
      ((process_items agent ptk (batch.take k)).1 ++
         (batch.map (fun _ => ProgressMsg.sig (-1)) ++ [ProgressMsg.done]),
       (process_items agent ptk (batch.take k)).2)

/-! ## ProgressTracker (module.py lines 705-772) -/

/-- The `ProgressTracker` counters (module.py lines 708-716). -/
structure Tracker where
  total_input_items : Nat
  processed_input_items : Nat
  total_output_items : Int
  failed_items : Nat
  deriving DecidableEq

/-- `ProgressTracker.__init__`: all counters start at zero. -/
def Tracker.init (total : Nat) : Tracker :=
  { total_input_items := total, processed_input_items := 0,
    total_output_items := 0, failed_items := 0 }

/-- `ProgressTracker.update` (module.py lines 718-736): `-1` counts one failed
and one processed item, `0` counts one processed item, and any other count adds
to the output total and counts one processed item. -/
def Tracker.update (t : Tracker) (count : Int) : Tracker :=
  if count = -1 then
    { t with failed_items := t.failed_items + 1,
             processed_input_items := t.processed_input_items + 1 }
  else if count = 0 then
    { t with processed_input_items := t.processed_input_items + 1 }
  else
    { t with total_output_items := t.total_output_items + count,
             processed_input_items := t.processed_input_items + 1 }

/-- `ProgressTracker._log_progress` (module.py lines 743-772): the counters the
summary line reports — processed, total, output-item count, failed count — or
`none` when no summary is logged (the method returns without logging when
`processed_input_items == 0`). -/
def Tracker.log_progress (t : Tracker) : Option (Nat × Nat × Int × Nat) :=
  if t.processed_input_items = 0 then none
  else some (t.processed_input_items, t.total_input_items,
             t.total_output_items, t.failed_items)

/-! ## Supervisor monitor loop (module.py lines 889-903) -/

/-- The supervisor's monitor loop over the sequence of messages dequeued from
the progress queue: while fewer than `num_processes` `'DONE'` sentinels have
been seen, dequeue a message; the sentinel increments the completed-process
count and every integer signal is applied to the tracker.  Returns the final
tracker and completed count. -/
def run_monitor (num_processes : Nat) :
    List ProgressMsg → Tracker → Nat → Tracker × Nat
  | [], t, completed => (t, completed)
  | msg :: rest, t, completed =>
      if num_processes ≤ completed then (t, completed)
      else
        match msg with
        | .done => run_monitor num_processes rest t (completed + 1)
        | .sig k => run_monitor num_processes rest (t.update k) completed

/-- Folding the tracker over a message sequence, ignoring sentinels (the
monitor loop's cumulative effect on the tracker once every message has been
dequeued). -/
def apply_signals (t : Tracker) (msgs : List ProgressMsg) : Tracker :=
  msgs.foldl
    (fun t m => match m with | ProgressMsg.done => t | ProgressMsg.sig k => t.update k) t

/-- The progress-queue messages of worker `i` of a run: `process_batch` over
the `i`-th batch, in `normal` mode when its driver initialized and in
`initFail` mode otherwise. -/
def worker_trace (init_ok : Nat → Bool) (agent : Nat → Item → ItemOutcome)
    (ptk : String) (batches : List (List Item)) (i : Nat) : List ProgressMsg :=
  (process_batch (if init_ok i then BatchMode.normal else BatchMode.initFail)
    (agent i) ptk (batches.getD i [])).1

/-! ## OutputManager (module.py lines 604-657) -/

/-- One line of the persisted output file: the header row or one record row. -/
inductive FileLine where
  | header
  | record (r : Item)
  deriving DecidableEq

/-- `OutputManager` state: the output file contents and the in-memory
`headers_written` flag.  `OutputManager.__init__` (module.py lines 607-616)
ensures the file exists and starts every fresh instance with
`headers_written = False`, whatever the file already holds. -/
structure OMState where
  file : List FileLine
  headers_written : Bool
  deriving DecidableEq

/-- A freshly constructed `OutputManager` over a file with the given existing
contents (`[]` when `_ensure_file_exists` just created it). -/
def OMState.init (existing : List FileLine) : OMState :=
  { file := existing, headers_written := false }

/-- Environment outcome of one `append_single_result` call: whether the main
locked CSV append succeeds and, failing that, whether the fallback backup-file
write succeeds. -/
structure WriteOutcome where
  main_ok : Bool
  backup_ok : Bool
  deriving DecidableEq

/-- The `try` body of `append_single_result` (module.py lines 632-647): check
emptiness, append the row under the lock — writing a header row first when the
file is empty or `headers_written` is still false — and set `headers_written`.
May raise (modelled by the `main_ok` outcome); a failed write changes
nothing. -/
def try_main_write (s : OMState) (result : Item) (w : WriteOutcome) :
    Except String (OMState × List Item) :=
  if w.main_ok then
    Except.ok
      ({ file := s.file ++
           (if s.file.isEmpty || !s.headers_written then [FileLine.header] else []) ++
           [FileLine.record result],
         headers_written := true }, [])
  else Except.error "append failed"

/-- The backup fallback of `append_single_result` (module.py lines 651-657):
write the single record to a uniquely-named side file.  May itself raise
(modelled by the `backup_ok` outcome). -/
def try_backup_write (s : OMState) (result : Item) (w : WriteOutcome) :
    Except String (OMState × List Item) :=
  if w.backup_ok then Except.ok (s, [result])
  else Except.error "backup failed"

/-- `append_single_result` (module.py lines 627-657) with its `try/except`
structure explicit: the body may raise; the handler tries the backup write,
itself guarded by an inner `try/except` that swallows the backup failure and
merely logs.  Returns the new manager state and the records written to backup
side files. -/
def append_single_result_exc (s : OMState) (result : Item) (w : WriteOutcome) :
    Except String (OMState × List Item) :=
  match try_main_write s result w with
  | .ok out => .ok out
  | .error _ =>
      match try_backup_write s result w with
      | .ok out => .ok out
      | .error _ => .ok (s, [])

/-- `append_single_result` as the state transformer it always evaluates to
(the call never propagates an exception). -/
def append_single_result (s : OMState) (result : Item) (w : WriteOutcome) :
    OMState × List Item :=
  match append_single_result_exc s result w with
  | .ok out => out
  | .error _ => (s, [])

/-- A sequence of `append_single_result` calls against one `OutputManager`
instance (the `OutputWriterProcess.run` loop draining the result queue):
returns the final state and all backup records written along the way. -/
def append_run (s : OMState) : List (Item × WriteOutcome) → OMState × List Item
  | [] => (s, [])
  | (r, w) :: rest =>
      ((append_run (append_single_result s r w).1 rest).1,
       (append_single_result s r w).2 ++
         (append_run (append_single_result s r w).1 rest).2)

/-! ## Theorems -/

theorem slice_chunks_aux_flatten (batch_size : Nat) (fuel : Nat) (l : List α) :
    (slice_chunks_aux batch_size fuel l).flatten = l := by
  induction fuel generalizing l with
  | zero => cases l <;> simp [slice_chunks_aux]
  | succ fuel ih =>
      cases l with
      | nil => simp [slice_chunks_aux]
      | cons x xs =>
          simp only [slice_chunks_aux, List.flatten_cons, ih, List.cons_append]
          rw [List.take_append_drop]

theorem slice_chunks_flatten (batch_size : Nat) (items : List α) :
    (slice_chunks batch_size items).flatten = items :=
  slice_chunks_aux_flatten batch_size items.length items

theorem slice_chunks_aux_ne_nil (batch_size fuel : Nat) (l : List α) (hl : l ≠ [])
    (b : List α) (hb : b ∈ slice_chunks_aux batch_size fuel l) : b ≠ [] := by
  induction fuel generalizing l with
  | zero =>
      cases l with
      | nil => exact absurd rfl hl
      | cons x xs =>
          simp only [slice_chunks_aux, List.mem_singleton] at hb
          subst hb; simp
  | succ fuel ih =>
      cases l with
      | nil => exact absurd rfl hl
      | cons x xs =>
          simp only [slice_chunks_aux, List.mem_cons] at hb
          rcases hb with hb | hb
          · subst hb; simp
          · cases hrest : xs.drop (batch_size - 1) with
            | nil =>
                rw [hrest] at hb
                cases fuel <;> simp [slice_chunks_aux] at hb
            | cons y ys =>
                rw [hrest] at hb
                exact ih (y :: ys) (by simp) hb

theorem merge_step_flatten (batches : List (List α)) :
    (merge_step batches).flatten = batches.flatten := by
  induction batches with
  | nil => rfl
  | cons b rest ih =>
      cases rest with
      | nil => rfl
      | cons b2 rest2 =>
          cases rest2 with
          | nil => simp [merge_step]
          | cons b3 rest3 =>
              show (b :: merge_step (b2 :: b3 :: rest3)).flatten = _
              simp only [List.flatten_cons]
              rw [show (merge_step (b2 :: b3 :: rest3)).flatten = (b2 :: b3 :: rest3).flatten from ih]
              simp

theorem merge_step_ne_nil (batches : List (List α)) :
    (∀ b ∈ batches, b ≠ []) → ∀ b ∈ merge_step batches, b ≠ [] := by
  induction batches with
  | nil => intro h b hb; simp [merge_step] at hb
  | cons b1 rest ih =>
      intro h b hb
      cases rest with
      | nil =>
          simp only [merge_step, List.mem_singleton] at hb
          subst hb; exact h b (by simp)
      | cons b2 rest2 =>
          cases rest2 with
          | nil =>
              simp only [merge_step, List.mem_singleton] at hb
              subst hb
              have h1 := h b1 (by simp)
              cases hb1 : b1 with
              | nil => exact absurd hb1 h1
              | cons y ys => simp [hb1]
          | cons b3 rest3 =>
              have hb' : b ∈ b1 :: merge_step (b2 :: b3 :: rest3) := hb
              rcases List.mem_cons.mp hb' with hb1 | hbrest
              · subst hb1; exact h b (by simp)
              · exact ih (fun c hc => h c (List.mem_cons_of_mem _ hc)) b hbrest

theorem merge_step_length (batches : List (List α)) (h : 2 ≤ batches.length) :
    (merge_step batches).length + 1 = batches.length := by
  induction batches with
  | nil => simp at h
  | cons b1 rest ih =>
      cases rest with
      | nil => simp at h
      | cons b2 rest2 =>
          cases rest2 with
          | nil => simp [merge_step]
          | cons b3 rest3 =>
              show (b1 :: merge_step (b2 :: b3 :: rest3)).length + 1 = _
              have := ih (by simp)
              simp only [List.length_cons] at this ⊢
              omega

theorem merge_loop_flatten (num_processes fuel : Nat) (batches : List (List α)) :
    (merge_loop num_processes fuel batches).flatten = batches.flatten := by
  induction fuel generalizing batches with
  | zero => rfl
  | succ fuel ih =>
      simp only [merge_loop]
      split
      · rw [ih, merge_step_flatten]
      · rfl

theorem merge_loop_ne_nil (num_processes fuel : Nat) (batches : List (List α))
    (h : ∀ b ∈ batches, b ≠ []) :
    ∀ b ∈ merge_loop num_processes fuel batches, b ≠ [] := by
  induction fuel generalizing batches with
  | zero => exact h
  | succ fuel ih =>
      simp only [merge_loop]
      split
      · exact ih (merge_step batches) (merge_step_ne_nil batches h)
      · exact h

theorem merge_loop_length (num_processes fuel : Nat) (batches : List (List α))
    (hn : 1 ≤ num_processes) (hfuel : batches.length ≤ fuel + num_processes) :
    (merge_loop num_processes fuel batches).length ≤ num_processes := by
  induction fuel generalizing batches with
  | zero => simpa using hfuel
  | succ fuel ih =>
      simp only [merge_loop]
      split
      · next hcond =>
          refine ih (merge_step batches) ?_
          have := merge_step_length batches (by omega)
          omega
      · next hcond =>
          rw [not_and_or] at hcond
          omega

theorem split_items_into_batches_flatten (items : List α) (n : Nat) :
    (split_items_into_batches items n).flatten = items := by
  unfold split_items_into_batches
  split
  · next h => simpa using (List.isEmpty_iff.mp h).symm
  · rw [merge_loop_flatten, slice_chunks_flatten]

/-- C1: for every item list and every `num_processes ≥ 1`,
`split_items_into_batches` returns batches whose in-order concatenation equals
the input, with at most `num_processes` batches, each batch non-empty, and an
empty input yields no batches. -/
theorem split_items_into_batches_spec (items : List α) (n : Nat) (hn : 1 ≤ n) :
    (split_items_into_batches items n).flatten = items ∧
    (split_items_into_batches items n).length ≤ n ∧
    (∀ b ∈ split_items_into_batches items n, b ≠ []) ∧
    (items = [] → split_items_into_batches items n = []) := by
  refine ⟨split_items_into_batches_flatten items n, ?_, ?_, ?_⟩
  · unfold split_items_into_batches
    split
    · simp
    · exact merge_loop_length n _ _ hn (Nat.le_add_right _ _)
  · unfold split_items_into_batches
    split
    · simp
    · next h =>
        exact merge_loop_ne_nil n _ _
          (slice_chunks_aux_ne_nil _ _ items (by simpa [List.isEmpty_iff] using h))
  · intro h; simp [split_items_into_batches, h]

/-- Witness for `split_items_into_batches_spec` at a concrete input. -/
theorem split_items_into_batches_spec_witness :
    (1 ≤ 2) ∧
    ((split_items_into_batches [1, 2, 3] 2).flatten = [1, 2, 3] ∧
     (split_items_into_batches [1, 2, 3] 2).length ≤ 2 ∧
     (∀ b ∈ split_items_into_batches [1, 2, 3] 2, b ≠ []) ∧
     ([1, 2, 3] = ([] : List Nat) → split_items_into_batches [1, 2, 3] 2 = [])) :=
  ⟨by decide, split_items_into_batches_spec [1, 2, 3] 2 (by decide)⟩

/-- C8 counterexample: on input `[{"k":"a"},{"k":"b"},{"k":"c"}]` with
`num_processes = 2`, the code computes `batch_size = max(1, 3 // 2) = 1`,
slices into `[[a],[b],[c]]`, and the trailing merge produces `[[a],[b,c]]` —
not `[[a,b],[c]]` as the claim states. -/
theorem split_three_two_counterexample :
    split_items_into_batches
        [[("k", "a")], [("k", "b")], [("k", "c")]] 2 ≠
      [[[("k", "a")], [("k", "b")]], [[("k", "c")]]] := by
  decide

/-- C8 amended: on input `[{"k":"a"},{"k":"b"},{"k":"c"}]` with
`num_processes = 2`, `split_items_into_batches` returns exactly the two
batches `[[a],[b,c]]` in that order. -/
theorem split_three_two_batches :
    split_items_into_batches
        [[("k", "a")], [("k", "b")], [("k", "c")]] 2 =
      [[[("k", "a")]], [[("k", "b")], [("k", "c")]]] := by
  decide

/-- C2 counterexample: with persisted output holding resume key `"a"` under
column `"k"`, the candidate list `[{"k":"b"}, {}]` is filtered to `[{"k":"b"}]`
by the code — the item whose resume-key field is missing (stringified value
`""`, which is not among the persisted keys) is dropped because the loop keeps
an item only when its key is truthy — while the claimed set difference `I \ K`
keeps both items. -/
theorem filter_items_for_resume_counterexample :
    filter_items_for_resume (some (["k"], [[("k", "a")]])) "k"
        [[("k", "b")], []] = [[("k", "b")]] ∧
    spec_filter_items_for_resume (some (["k"], [[("k", "a")]])) "k"
        [[("k", "b")], []] = [[("k", "b")], []] := by
  decide

/-- C2 amended: when the persisted output yields a non-empty key set `K`,
`_filter_items_for_resume` keeps exactly the items (in input order) whose
stringified resume-key value is non-empty and not in `K` — an item whose
resume-key field is missing or empty is dropped as well; when the output does
not exist or holds no rows, the input is returned unchanged. -/
theorem filter_items_for_resume_amended (output : OutputData) (rk : String)
    (items : List Item) (hK : load_existing_results output rk ≠ []) :
    (∀ item, item ∈ filter_items_for_resume output rk items ↔
      item ∈ items ∧ itemGet item rk ≠ "" ∧
        itemGet item rk ∉ load_existing_results output rk) ∧
    (filter_items_for_resume output rk items).Sublist items ∧
    (∀ items2 : List Item, filter_items_for_resume none rk items2 = items2) ∧
    (∀ (cols : List String) (items2 : List Item),
      filter_items_for_resume (some (cols, [])) rk items2 = items2) := by
  have hKe : (load_existing_results output rk).isEmpty = false := by
    simp [List.isEmpty_eq_false, hK]
  refine ⟨?_, ?_, ?_, ?_⟩
  · intro item
    simp [filter_items_for_resume, hKe, List.mem_filter, and_assoc]
  · simp only [filter_items_for_resume, hKe, Bool.false_eq_true, if_false]
    exact List.filter_sublist items
  · intro items2; rfl
  · intro cols items2; rfl

/-- Witness for `filter_items_for_resume_amended` at a concrete output file
and candidate list. -/
theorem filter_items_for_resume_amended_witness :
    load_existing_results (some (["k"], [[("k", "a")]])) "k" ≠ [] ∧
    ((∀ item, item ∈ filter_items_for_resume (some (["k"], [[("k", "a")]])) "k"
        [[("k", "b")]] ↔
      item ∈ [[("k", "b")]] ∧ itemGet item "k" ≠ "" ∧
        itemGet item "k" ∉ load_existing_results (some (["k"], [[("k", "a")]])) "k") ∧
    (filter_items_for_resume (some (["k"], [[("k", "a")]])) "k"
        [[("k", "b")]]).Sublist [[("k", "b")]] ∧
    (∀ items2 : List Item, filter_items_for_resume none "k" items2 = items2) ∧
    (∀ (cols : List String) (items2 : List Item),
      filter_items_for_resume (some (cols, [])) "k" items2 = items2)) :=
  ⟨by decide, filter_items_for_resume_amended _ _ _ (by decide)⟩

theorem item_step_fst (agent : Item → ItemOutcome) (ptk : String) (item : Item) :
    (item_step agent ptk item).1 = [item_signal agent ptk item] := by
  unfold item_step item_signal
  split
  · rfl
  · cases agent item with
    | ok results => by_cases h : results.isEmpty <;> simp [h]
    | exn => rfl

theorem process_items_fst (agent : Item → ItemOutcome) (ptk : String) (batch : List Item) :
    (process_items agent ptk batch).1 = batch.map (item_signal agent ptk) := by
  induction batch with
  | nil => rfl
  | cons item rest ih => simp [process_items, item_step_fst, ih]

theorem item_signal_not_done (agent : Item → ItemOutcome) (ptk : String) (item : Item) :
    (item_signal agent ptk item).isDone = false := by
  unfold item_signal
  split
  · rfl
  · cases agent item with
    | ok results => by_cases h : results.isEmpty <;> simp [h, ProgressMsg.isDone]
    | exn => rfl

theorem process_batch_done_count (mode : BatchMode) (agent : Item → ItemOutcome)
    (ptk : String) (batch : List Item) :
    (process_batch mode agent ptk batch).1.countP ProgressMsg.isDone = 1 := by
  have hmap : ∀ b : List Item,
      (b.map fun _ => ProgressMsg.sig (-1)).countP ProgressMsg.isDone = 0 := by
    intro b
    refine List.countP_eq_zero.mpr ?_
    intro a ha
    obtain ⟨x, _, rfl⟩ := List.mem_map.mp ha
    simp [ProgressMsg.isDone]
  have hitems : ∀ b : List Item,
      (process_items agent ptk b).1.countP ProgressMsg.isDone = 0 := by
    intro b
    rw [process_items_fst]
    refine List.countP_eq_zero.mpr ?_
    intro a ha
    obtain ⟨x, _, rfl⟩ := List.mem_map.mp ha
    simp [item_signal_not_done]
  cases mode with
  | initFail => simp [process_batch, List.countP_append, hmap, List.countP_cons, ProgressMsg.isDone]
  | normal => simp [process_batch, List.countP_append, hitems, List.countP_cons, ProgressMsg.isDone]
  | outerExn k =>
      simp [process_batch, List.countP_append, hmap, hitems, List.countP_cons, ProgressMsg.isDone]

theorem process_batch_last (mode : BatchMode) (agent : Item → ItemOutcome)
    (ptk : String) (batch : List Item) :
    (process_batch mode agent ptk batch).1.getLast? = some ProgressMsg.done := by
  cases mode <;> simp [process_batch, List.getLast?_append]

theorem process_batch_normal_sig_count (agent : Item → ItemOutcome) (ptk : String)
    (batch : List Item) :
    (process_batch BatchMode.normal agent ptk batch).1.countP (fun m => !m.isDone) =
      batch.length := by
  have hall : ∀ a ∈ batch.map (item_signal agent ptk), (fun m => !m.isDone) a = true := by
    intro a ha
    obtain ⟨x, _, rfl⟩ := List.mem_map.mp ha
    simp [item_signal_not_done]
  show ((process_items agent ptk batch).1 ++ [ProgressMsg.done]).countP
      (fun m => !m.isDone) = batch.length
  rw [List.countP_append, process_items_fst, List.countP_eq_length.mpr hall]
  simp [List.countP_cons, ProgressMsg.isDone]

theorem process_batch_initFail_sig_count (agent : Item → ItemOutcome) (ptk : String)
    (batch : List Item) :
    (process_batch BatchMode.initFail agent ptk batch).1.countP (fun m => !m.isDone) =
      batch.length := by
  have hall : ∀ a ∈ batch.map (fun _ => ProgressMsg.sig (-1)),
      (fun m => !m.isDone) a = true := by
    intro a ha
    obtain ⟨x, _, rfl⟩ := List.mem_map.mp ha
    simp [ProgressMsg.isDone]
  show ((batch.map fun _ => ProgressMsg.sig (-1)) ++ [ProgressMsg.done]).countP
      (fun m => !m.isDone) = batch.length
  rw [List.countP_append, List.countP_eq_length.mpr hall]
  simp [List.countP_cons, ProgressMsg.isDone]

/-- C3: every invocation of `process_batch` puts exactly one `'DONE'` sentinel
on the progress queue — for every batch, every agent behaviour, and every
termination mode (normal completion, driver-initialization failure, or an
exception unwinding the processing loop) — and the sentinel is the last
message the worker puts. -/
theorem process_batch_exactly_one_done (mode : BatchMode) (agent : Item → ItemOutcome)
    (ptk : String) (batch : List Item) :
    (process_batch mode agent ptk batch).1.countP ProgressMsg.isDone = 1 ∧
    (process_batch mode agent ptk batch).1.getLast? = some ProgressMsg.done :=
  ⟨process_batch_done_count mode agent ptk batch, process_batch_last mode agent ptk batch⟩

/-- C4: a normally-terminating batch emits, in batch order, exactly one
progress signal per item followed by the sentinel; an item whose agent call
raises contributes exactly the `Failed` signal `-1`, and a failing item never
cuts the batch short — the signal count always equals the batch length. -/
theorem process_batch_failed_item (agent : Item → ItemOutcome) (ptk : String)
    (batch : List Item) (item : Item) (_hmem : item ∈ batch)
    (hkey : itemGet item ptk ≠ "") (hexn : agent item = ItemOutcome.exn) :
    (process_batch BatchMode.normal agent ptk batch).1 =
      batch.map (item_signal agent ptk) ++ [ProgressMsg.done] ∧
    item_signal agent ptk item = ProgressMsg.sig (-1) ∧
    (process_batch BatchMode.normal agent ptk batch).1.countP (fun m => !m.isDone) =
      batch.length := by
  refine ⟨by simp [process_batch, process_items_fst], ?_,
    process_batch_normal_sig_count agent ptk batch⟩
  simp [item_signal, hkey, hexn]

/-- Witness for `process_batch_failed_item`: a one-item batch whose agent call
raises. -/
theorem process_batch_failed_item_witness :
    ([("u", "x")] ∈ [[("u", "x")]] ∧ itemGet [("u", "x")] "u" ≠ "" ∧
      (fun _ : Item => ItemOutcome.exn) [("u", "x")] = ItemOutcome.exn) ∧
    ((process_batch BatchMode.normal (fun _ : Item => ItemOutcome.exn) "u"
        [[("u", "x")]]).1 =
      [[("u", "x")]].map (item_signal (fun _ : Item => ItemOutcome.exn) "u") ++
        [ProgressMsg.done] ∧
    item_signal (fun _ : Item => ItemOutcome.exn) "u" [("u", "x")] =
      ProgressMsg.sig (-1) ∧
    (process_batch BatchMode.normal (fun _ : Item => ItemOutcome.exn) "u"
        [[("u", "x")]]).1.countP (fun m => !m.isDone) = [[("u", "x")]].length) :=
  ⟨⟨by decide, by decide, rfl⟩,
    process_batch_failed_item _ _ _ _ (by decide) (by decide) rfl⟩

/-- C6: when driver initialization fails at worker start, `process_batch`
emits the `Failed` signal `-1` exactly once per item of its batch, never
processes any item (nothing is put on the output queue), and then terminates,
putting the completion sentinel last. -/
theorem process_batch_init_fail (agent : Item → ItemOutcome) (ptk : String)
    (batch : List Item) :
    (process_batch BatchMode.initFail agent ptk batch).1 =
      batch.map (fun _ => ProgressMsg.sig (-1)) ++ [ProgressMsg.done] ∧
    (process_batch BatchMode.initFail agent ptk batch).1.countP
        (fun m => m == ProgressMsg.sig (-1)) = batch.length ∧
    (process_batch BatchMode.initFail agent ptk batch).2 = [] ∧
    (process_batch BatchMode.initFail agent ptk batch).1.getLast? =
      some ProgressMsg.done := by
  refine ⟨rfl, ?_, rfl, process_batch_last _ _ _ _⟩
  have hall : ∀ a ∈ batch.map (fun _ => ProgressMsg.sig (-1)),
      (fun m => m == ProgressMsg.sig (-1)) a = true := by
    intro a ha
    obtain ⟨x, _, rfl⟩ := List.mem_map.mp ha
    simp
  show ((batch.map fun _ => ProgressMsg.sig (-1)) ++ [ProgressMsg.done]).countP
      (fun m => m == ProgressMsg.sig (-1)) = batch.length
  rw [List.countP_append, List.countP_eq_length.mpr hall]
  simp [List.countP_cons]

/-- C7, evaluated at the failing input: an `OutputManager` constructed over an
output file that already holds a header row and one record (a resumed run,
`headers_written` starting `False`) writes the header **again** on its first
successful append — `write_header = file_is_empty or not self.headers_written`
is true even though the file is non-empty — so the persisted file then holds
the header row twice, violating the header-written-once invariant. -/
theorem resumed_append_duplicates_header :
    ((OMState.init [FileLine.header, FileLine.record [("k", "a")]]).file.count
        FileLine.header = 1) ∧
    (append_single_result (OMState.init
        [FileLine.header, FileLine.record [("k", "a")]])
        [("k", "b")] ⟨true, true⟩).1.file =
      [FileLine.header, FileLine.record [("k", "a")],
       FileLine.header, FileLine.record [("k", "b")]] ∧
    (append_single_result (OMState.init
        [FileLine.header, FileLine.record [("k", "a")]])
        [("k", "b")] ⟨true, true⟩).1.file.count FileLine.header = 2 := by
  decide

/-- C9 counterexample: when zero progress signals were applied (the tracker
still holds `processed_input_items = 0`, e.g. an interrupted run whose workers
never signalled), the final `_log_progress` call returns without logging — no
summary is emitted, contradicting the claim that the final summary is emitted
for every run that spawned workers. -/
theorem log_progress_zero_counterexample :
    Tracker.log_progress (Tracker.init 5) = none := by decide

/-- C9 amended: the final `_log_progress` call emits the summary — reporting
processed/total, the output-item count, and the failed count — precisely when
at least one progress signal was applied; with `processed_input_items = 0` it
logs nothing. -/
theorem log_progress_amended (t : Tracker) :
    (t.processed_input_items ≠ 0 →
      t.log_progress = some (t.processed_input_items, t.total_input_items,
        t.total_output_items, t.failed_items)) ∧
    (t.processed_input_items = 0 → t.log_progress = none) := by
  constructor <;> intro h <;> simp [Tracker.log_progress, h]

/-- Witness for `log_progress_amended`: a tracker that has applied one
signal. -/
theorem log_progress_amended_witness :
    ((Tracker.init 3).update 0).processed_input_items ≠ 0 ∧
    ((Tracker.init 3).update 0).log_progress = some (1, 3, 0, 0) := by
  refine ⟨by decide, ?_⟩
  rw [(log_progress_amended ((Tracker.init 3).update 0)).1 (by decide)]
  decide

/-- C10: `append_single_result` never propagates an exception to its caller:
for every manager state, record, and write outcome — successful append, failed
append with successful backup-file write, or failure of both — the
`try/except` structure returns normally, so a sink error can never terminate
the `OutputWriterProcess` loop.  On a lone append failure the record goes to a
backup side file; when the backup also fails the state is simply unchanged. -/
theorem append_single_result_total (s : OMState) (result : Item) (w : WriteOutcome) :
    append_single_result_exc s result w =
      Except.ok (append_single_result s result w) ∧
    (w.main_ok = false → w.backup_ok = true →
      append_single_result s result w = (s, [result])) ∧
    (w.main_ok = false → w.backup_ok = false →
      append_single_result s result w = (s, [])) := by
  obtain ⟨mo, bo⟩ := w
  cases mo <;> cases bo <;>
    simp [append_single_result, append_single_result_exc, try_main_write,
      try_backup_write]

/-- Witness for `append_single_result_total` at a concrete failing append. -/
theorem append_single_result_total_witness :
    append_single_result_exc (OMState.init []) [("k", "a")] ⟨false, true⟩ =
      Except.ok (append_single_result (OMState.init []) [("k", "a")] ⟨false, true⟩) ∧
    ((false : Bool) = false → (true : Bool) = true →
      append_single_result (OMState.init []) [("k", "a")] ⟨false, true⟩ =
        (OMState.init [], [[("k", "a")]])) ∧
    ((false : Bool) = false → (true : Bool) = false →
      append_single_result (OMState.init []) [("k", "a")] ⟨false, true⟩ =
        (OMState.init [], [])) :=
  append_single_result_total (OMState.init []) [("k", "a")] ⟨false, true⟩

theorem update_processed (t : Tracker) (k : Int) :
    (t.update k).processed_input_items = t.processed_input_items + 1 := by
  unfold Tracker.update
  split
  · rfl
  · split <;> rfl

theorem apply_signals_processed (msgs : List ProgressMsg) (t : Tracker) :
    (apply_signals t msgs).processed_input_items =
      t.processed_input_items + msgs.countP (fun m => !m.isDone) := by
  induction msgs generalizing t with
  | nil => simp [apply_signals]
  | cons m rest ih =>
      cases m with
      | done =>
          show (apply_signals t rest).processed_input_items = _
          rw [ih, List.countP_cons]
          simp [ProgressMsg.isDone]
      | sig k =>
          show (apply_signals (t.update k) rest).processed_input_items = _
          rw [ih, update_processed, List.countP_cons]
          simp only [ProgressMsg.isDone, Bool.not_false, if_true]
          omega

theorem run_monitor_complete (N : Nat) (msgs : List ProgressMsg) (t : Tracker) (c : Nat)
    (hcount : msgs.countP ProgressMsg.isDone + c = N)
    (hlast : msgs ≠ [] → msgs.getLast? = some ProgressMsg.done) :
    run_monitor N msgs t c = (apply_signals t msgs, N) := by
  induction msgs generalizing t c with
  | nil =>
      have hc : c = N := by simpa using hcount
      simp [run_monitor, apply_signals, hc]
  | cons m rest ih =>
      have hlast' : (m :: rest).getLast? = some ProgressMsg.done := hlast (by simp)
      have hmem : ProgressMsg.done ∈ m :: rest := List.mem_of_mem_getLast? hlast'
      have hpos : 0 < (m :: rest).countP ProgressMsg.isDone :=
        List.countP_pos_iff.mpr ⟨ProgressMsg.done, hmem, rfl⟩
      have hc : c < N := by omega
      cases m with
      | done =>
          have hrest_last : rest ≠ [] → rest.getLast? = some ProgressMsg.done := by
            intro hne
            cases rest with
            | nil => exact absurd rfl hne
            | cons y ys => rw [← List.getLast?_cons_cons]; exact hlast'
          have hcount' : rest.countP ProgressMsg.isDone + (c + 1) = N := by
            rw [List.countP_cons] at hcount
            simp [ProgressMsg.isDone] at hcount
            omega
          calc run_monitor N (ProgressMsg.done :: rest) t c
              = run_monitor N rest t (c + 1) := by
                rw [show run_monitor N (ProgressMsg.done :: rest) t c =
                    if N ≤ c then (t, c) else run_monitor N rest t (c + 1) from rfl,
                  if_neg (by omega)]
            _ = (apply_signals t rest, N) := ih t (c + 1) hcount' hrest_last
            _ = (apply_signals t (ProgressMsg.done :: rest), N) := rfl
      | sig k =>
          have hrestne : rest ≠ [] := by
            intro h
            rw [h] at hlast'
            simp at hlast'
          have hrest_last : rest ≠ [] → rest.getLast? = some ProgressMsg.done := by
            intro _
            cases rest with
            | nil => exact absurd rfl hrestne
            | cons y ys => rw [← List.getLast?_cons_cons]; exact hlast'
          have hcount' : rest.countP ProgressMsg.isDone + c = N := by
            rw [List.countP_cons] at hcount
            simp [ProgressMsg.isDone] at hcount
            omega
          calc run_monitor N (ProgressMsg.sig k :: rest) t c
              = run_monitor N rest (t.update k) c := by
                rw [show run_monitor N (ProgressMsg.sig k :: rest) t c =
                    if N ≤ c then (t, c) else run_monitor N rest (t.update k) c from rfl,
                  if_neg (by omega)]
            _ = (apply_signals (t.update k) rest, N) := ih (t.update k) c hcount' hrest_last
            _ = (apply_signals t (ProgressMsg.sig k :: rest), N) := rfl

theorem countP_map_snd_eq_sum (N : Nat) (P : ProgressMsg → Bool)
    (ms : List (Nat × ProgressMsg)) (hdom : ∀ p ∈ ms, p.1 < N) :
    (ms.map Prod.snd).countP P =
      ∑ i in Finset.range N, ((ms.filter (fun q => q.1 == i)).map Prod.snd).countP P := by
  induction ms with
  | nil => simp
  | cons p rest ih =>
      have hp : p.1 < N := hdom p (by simp)
      have hrest : ∀ q ∈ rest, q.1 < N := fun q hq => hdom q (List.mem_cons_of_mem _ hq)
      have hsplit : ∀ i,
          (((p :: rest).filter (fun q => q.1 == i)).map Prod.snd).countP P =
            ((rest.filter (fun q => q.1 == i)).map Prod.snd).countP P +
              (if i = p.1 then (if P p.2 then 1 else 0) else 0) := by
        intro i
        by_cases h : p.1 = i
        · subst h
          simp [List.filter_cons, List.countP_cons]
        · have hne : i ≠ p.1 := fun hh => h hh.symm
          simp [List.filter_cons, h, hne]
      rw [List.map_cons, List.countP_cons, ih hrest]
      rw [Finset.sum_congr rfl (fun i _ => hsplit i), Finset.sum_add_distrib]
      rw [Finset.sum_ite_eq' (Finset.range N) p.1 (fun _ => if P p.2 then 1 else 0)]
      simp [Finset.mem_range.mpr hp]

theorem filter_getLast?_of_getLast? {γ : Type} (P : γ → Bool) (l : List γ) (a : γ)
    (h : l.getLast? = some a) (hP : P a = true) :
    (l.filter P).getLast? = some a := by
  induction l generalizing a with
  | nil => simp at h
  | cons x rest ih =>
      cases rest with
      | nil =>
          simp only [List.getLast?_singleton, Option.some.injEq] at h
          subst h
          simp [List.filter_cons, hP]
      | cons y ys =>
          rw [List.getLast?_cons_cons] at h
          have ih' := ih a h hP
          rw [List.filter_cons]
          by_cases hx : P x = true
          · rw [if_pos hx]
            have hne : (y :: ys).filter P ≠ [] := by
              intro hnil
              rw [hnil] at ih'
              simp at ih'
            cases hf : (y :: ys).filter P with
            | nil => exact absurd hf hne
            | cons z zs =>
                rw [hf] at ih'
                rw [List.getLast?_cons_cons]
                exact ih'
          · rw [if_neg hx]
            exact ih'

theorem sum_range_getD_length {β : Type} (batches : List (List β)) :
    (∑ i in Finset.range batches.length, (batches.getD i []).length) =
      (batches.map List.length).sum := by
  induction batches with
  | nil => simp
  | cons b rest ih =>
      rw [List.length_cons, Finset.sum_range_succ']
      simp only [List.getD_cons_succ, List.getD_cons_zero]
      rw [ih]
      simp only [List.map_cons, List.sum_cons]
      omega

theorem worker_trace_done_count (init_ok : Nat → Bool) (agent : Nat → Item → ItemOutcome)
    (ptk : String) (batches : List (List Item)) (i : Nat) :
    (worker_trace init_ok agent ptk batches i).countP ProgressMsg.isDone = 1 :=
  process_batch_done_count _ _ _ _

theorem worker_trace_last (init_ok : Nat → Bool) (agent : Nat → Item → ItemOutcome)
    (ptk : String) (batches : List (List Item)) (i : Nat) :
    (worker_trace init_ok agent ptk batches i).getLast? = some ProgressMsg.done :=
  process_batch_last _ _ _ _

theorem worker_trace_sig_count (init_ok : Nat → Bool) (agent : Nat → Item → ItemOutcome)
    (ptk : String) (batches : List (List Item)) (i : Nat) :
    (worker_trace init_ok agent ptk batches i).countP (fun m => !m.isDone) =
      (batches.getD i []).length := by
  unfold worker_trace
  cases init_ok i with
  | true => exact process_batch_normal_sig_count _ _ _
  | false => exact process_batch_initFail_sig_count _ _ _

/-- C5: for every filtered input list, worker count, per-worker driver-init
outcome and agent behaviour, and every progress-queue dequeue order that is
FIFO per worker (each worker's subsequence of the merged message list is
exactly its trace), the supervisor's monitor loop — which stops once it has
seen one `'DONE'` per worker — applies every integer signal before observing
the last sentinel, and the tracker's `processed_input_items` then equals the
number of filtered input items. -/
theorem monitor_processed_converges
    (items : List Item) (n : Nat)
    (init_ok : Nat → Bool) (agent : Nat → Item → ItemOutcome) (ptk : String)
    (ms : List (Nat × ProgressMsg))
    (hdom : ∀ p ∈ ms, p.1 < (split_items_into_batches items n).length)
    (hms : ∀ i < (split_items_into_batches items n).length,
        (ms.filter (fun q => q.1 == i)).map Prod.snd =
          worker_trace init_ok agent ptk (split_items_into_batches items n) i) :
    (run_monitor (split_items_into_batches items n).length (ms.map Prod.snd)
        (Tracker.init items.length) 0).1.processed_input_items = items.length ∧
    (run_monitor (split_items_into_batches items n).length (ms.map Prod.snd)
        (Tracker.init items.length) 0).2 =
      (split_items_into_batches items n).length := by
  set B := split_items_into_batches items n with hB
  have hdone : (ms.map Prod.snd).countP ProgressMsg.isDone = B.length := by
    rw [countP_map_snd_eq_sum B.length ProgressMsg.isDone ms hdom]
    rw [Finset.sum_congr rfl (fun i hi => by
      rw [hms i (Finset.mem_range.mp hi), worker_trace_done_count])]
    simp
  have hsig : (ms.map Prod.snd).countP (fun m => !m.isDone) = items.length := by
    rw [countP_map_snd_eq_sum B.length _ ms hdom]
    rw [Finset.sum_congr rfl (fun i hi => by
      rw [hms i (Finset.mem_range.mp hi), worker_trace_sig_count])]
    rw [sum_range_getD_length, ← List.length_flatten, hB,
      split_items_into_batches_flatten]
  have hlast : ms.map Prod.snd ≠ [] →
      (ms.map Prod.snd).getLast? = some ProgressMsg.done := by
    intro hne
    have hmsne : ms ≠ [] := by
      intro h
      rw [h] at hne
      simp at hne
    have hpl : ms.getLast? = some (ms.getLast hmsne) := List.getLast?_eq_getLast ms hmsne
    have hpm : ms.getLast hmsne ∈ ms := List.mem_of_mem_getLast? hpl
    have hpi : (ms.getLast hmsne).1 < B.length := hdom _ hpm
    have hfl : (ms.filter (fun q => q.1 == (ms.getLast hmsne).1)).getLast? =
        some (ms.getLast hmsne) :=
      filter_getLast?_of_getLast? _ ms _ hpl (by simp)
    have hmap : ((ms.filter (fun q => q.1 == (ms.getLast hmsne).1)).map
        Prod.snd).getLast? = some (ms.getLast hmsne).2 := by
      rw [List.getLast?_map, hfl]
      rfl
    rw [hms _ hpi, worker_trace_last] at hmap
    have hp2 : (ms.getLast hmsne).2 = ProgressMsg.done := (Option.some.inj hmap).symm
    rw [List.getLast?_map, hpl]
    simp [hp2]
  have hrun := run_monitor_complete B.length (ms.map Prod.snd)
    (Tracker.init items.length) 0 (by omega) hlast
  rw [hrun]
  constructor
  · show (apply_signals (Tracker.init items.length)
        (ms.map Prod.snd)).processed_input_items = items.length
    rw [apply_signals_processed]
    simp [Tracker.init, hsig]
  · rfl

/-- Witness for `monitor_processed_converges`: two one-item batches whose agent
calls both raise, with the workers' signals interleaved on the queue. -/
theorem monitor_processed_converges_witness :
    (∀ p ∈ ([(0, ProgressMsg.sig (-1)), (1, ProgressMsg.sig (-1)),
        (0, ProgressMsg.done), (1, ProgressMsg.done)] : List (Nat × ProgressMsg)),
      p.1 < (split_items_into_batches [[("k", "a")], [("k", "b")]] 2).length) ∧
    (∀ i < (split_items_into_batches [[("k", "a")], [("k", "b")]] 2).length,
      (([(0, ProgressMsg.sig (-1)), (1, ProgressMsg.sig (-1)),
          (0, ProgressMsg.done), (1, ProgressMsg.done)] :
            List (Nat × ProgressMsg)).filter (fun q => q.1 == i)).map Prod.snd =
        worker_trace (fun _ => true) (fun _ _ => ItemOutcome.exn) "k"
          (split_items_into_batches [[("k", "a")], [("k", "b")]] 2) i) ∧
    ((run_monitor (split_items_into_batches [[("k", "a")], [("k", "b")]] 2).length
        (([(0, ProgressMsg.sig (-1)), (1, ProgressMsg.sig (-1)),
          (0, ProgressMsg.done), (1, ProgressMsg.done)] :
            List (Nat × ProgressMsg)).map Prod.snd)
        (Tracker.init ([[("k", "a")], [("k", "b")]] : List Item).length)
        0).1.processed_input_items = ([[("k", "a")], [("k", "b")]] : List Item).length ∧
    (run_monitor (split_items_into_batches [[("k", "a")], [("k", "b")]] 2).length
        (([(0, ProgressMsg.sig (-1)), (1, ProgressMsg.sig (-1)),
          (0, ProgressMsg.done), (1, ProgressMsg.done)] :
            List (Nat × ProgressMsg)).map Prod.snd)
        (Tracker.init ([[("k", "a")], [("k", "b")]] : List Item).length)
        0).2 = (split_items_into_batches [[("k", "a")], [("k", "b")]] 2).length) :=
  ⟨by decide, by decide,
    monitor_processed_converges [[("k", "a")], [("k", "b")]] 2
      (fun _ => true) (fun _ _ => ItemOutcome.exn) "k"
      [(0, ProgressMsg.sig (-1)), (1, ProgressMsg.sig (-1)),
        (0, ProgressMsg.done), (1, ProgressMsg.done)]
      (by decide) (by decide)⟩

end SavageScraper
